import Mathlib

/-!
Verification of the smart-contract-debugger repository (src/app/page.tsx and
the server action returning the contract file listing).

The development shallowly embeds the data model and the operations of the
page component: JavaScript values reachable from JSON parsing and contract
calls are modelled by the inductive type `Value`; JavaScript objects are
modelled as association lists preserving insertion order; the component's
React state cells are gathered into the structure `AppState`, and each
event handler becomes a pure state transition.  External capabilities
(the ethers library's `getBigInt`, the platform's `JSON.parse`, the network)
are modelled by explicit definitions or by oracle parameters, as noted in
the doc comments.
-/

set_option maxHeartbeats 1000000

/-- JavaScript runtime values as far as this program observes them:
arbitrary-precision integers (`bigint`), strings, booleans, `null`
(also standing in for `undefined`, which the program only ever probes for
truthiness), numbers (restricted to integral JSON numerals, the only kind
any claim exercises), arrays, and plain objects as ordered key/value lists. -/
inductive Value where
  | vBigInt : Int → Value
  | vStr : String → Value
  | vBool : Bool → Value
  | vNull : Value
  | vNum : Int → Value
  | vArr : List Value → Value
  | vObj : List (String × Value) → Value

/-- Substring occurrence on character lists, the semantics of
JavaScript's `String.prototype.includes`. -/
def listContains : List Char → List Char → Bool
  | _, [] => true
  | [], _ :: _ => false
  | c :: cs, p :: ps => List.isPrefixOf (p :: ps) (c :: cs) || listContains cs (p :: ps)

/-- `strIncludes s sub` models `s.includes(sub)` from page.tsx's type tests. -/
def strIncludes (s sub : String) : Bool :=
  listContains s.data sub.data

/-- Hexadecimal digit test. -/
def isHexDigitChar (c : Char) : Bool :=
  c.isDigit || ('a' ≤ c ∧ c ≤ 'f') || ('A' ≤ c ∧ c ≤ 'F')

/-- Numeric value of a hexadecimal digit character. -/
def hexDigitVal (c : Char) : Nat :=
  if c.isDigit then c.toNat - '0'.toNat
  else if 'a' ≤ c ∧ c ≤ 'f' then c.toNat - 'a'.toNat + 10
  else c.toNat - 'A'.toNat + 10

/-- Modelled external library: `ethers.getBigInt` on a string argument.
Accepts an optional minus sign followed by a nonempty run of decimal
digits, or a `0x`-prefixed nonempty run of hexadecimal digits; every
other string makes it throw.  The thrown message is collapsed to a fixed
string since no claim depends on its wording. -/
def getBigInt (s : String) : Except String Int :=
  let signed : Bool × List Char :=
    match s.data with
    | '-' :: rest => (true, rest)
    | cs => (false, cs)
  match signed.2 with
  | '0' :: 'x' :: rest =>
    if rest ≠ [] ∧ rest.all isHexDigitChar then
      let n : Nat := rest.foldl (fun a c => a * 16 + hexDigitVal c) 0
      .ok (if signed.1 then -(n : Int) else (n : Int))
    else .error "invalid BigNumberish string"
  | ds =>
    if ds ≠ [] ∧ ds.all Char.isDigit then
      let n : Nat := ds.foldl (fun a c => a * 10 + (c.toNat - '0'.toNat)) 0
      .ok (if signed.1 then -(n : Int) else (n : Int))
    else .error "invalid BigNumberish string"

/-- Leading JSON whitespace removal. -/
def skipWs : List Char → List Char
  | [] => []
  | c :: rest =>
    if c = ' ' ∨ c = '\t' ∨ c = '\n' ∨ c = '\r' then skipWs rest else c :: rest

/-- Consume an expected literal, returning the remainder on success. -/
def dropLit : List Char → List Char → Option (List Char)
  | [], cs => some cs
  | _ :: _, [] => none
  | p :: ps, c :: cs => if p = c then dropLit ps cs else none

mutual

/-- Modelled external library: one step of `JSON.parse`, fuel-indexed.
Restricted to the JSON fragment any claim exercises: `null`, booleans,
integral numerals, escape-free strings, arrays and objects; fractional or
exponent numerals and string escapes are rejected by the model. -/
def parseJsonVal : Nat → List Char → Option (Value × List Char)
  | 0, _ => none
  | fuel + 1, cs =>
    match skipWs cs with
    | [] => none
    | c :: rest =>
      if c = 'n' then
        (dropLit ['u', 'l', 'l'] rest).map (fun r => (Value.vNull, r))
      else if c = 't' then
        (dropLit ['r', 'u', 'e'] rest).map (fun r => (Value.vBool true, r))
      else if c = 'f' then
        (dropLit ['a', 'l', 's', 'e'] rest).map (fun r => (Value.vBool false, r))
      else if c = '"' then
        let str := rest.takeWhile (fun x => x ≠ '"' ∧ x ≠ '\\')
        match dropLit (str ++ ['"']) rest with
        | some r => some (Value.vStr ⟨str⟩, r)
        | none => none
      else if c = '-' ∨ c.isDigit then
        let body := if c = '-' then rest else c :: rest
        let digits := body.takeWhile Char.isDigit
        let after := body.dropWhile Char.isDigit
        if digits = [] then none
        else
          match after with
          | x :: _ =>
            if x = '.' ∨ x = 'e' ∨ x = 'E' then none
            else
              let n : Nat := digits.foldl (fun a d => a * 10 + (d.toNat - '0'.toNat)) 0
              some (Value.vNum (if c = '-' then -(n : Int) else (n : Int)), after)
          | [] =>
            let n : Nat := digits.foldl (fun a d => a * 10 + (d.toNat - '0'.toNat)) 0
            some (Value.vNum (if c = '-' then -(n : Int) else (n : Int)), after)
      else if c = '[' then
        match skipWs rest with
        | ']' :: r => some (Value.vArr [], r)
        | other =>
          match parseJsonItems fuel other with
          | some (items, r) => some (Value.vArr items, r)
          | none => none
      else if c = '\x7b' then
        match skipWs rest with
        | '\x7d' :: r => some (Value.vObj [], r)
        | other =>
          match parseJsonFields fuel other with
          | some (fields, r) => some (Value.vObj fields, r)
          | none => none
      else none

/-- Comma-separated array items followed by a closing bracket. -/
def parseJsonItems : Nat → List Char → Option (List Value × List Char)
  | 0, _ => none
  | fuel + 1, cs =>
    match parseJsonVal fuel cs with
    | none => none
    | some (v, rest) =>
      match skipWs rest with
      | ',' :: r =>
        match parseJsonItems fuel r with
        | some (items, r2) => some (v :: items, r2)
        | none => none
      | ']' :: r => some ([v], r)
      | _ => none

/-- Comma-separated object fields followed by a closing brace. -/
def parseJsonFields : Nat → List Char → Option (List (String × Value) × List Char)
  | 0, _ => none
  | fuel + 1, cs =>
    match skipWs cs with
    | '"' :: rest =>
      let key := rest.takeWhile (fun x => x ≠ '"' ∧ x ≠ '\\')
      match dropLit (key ++ ['"']) rest with
      | none => none
      | some afterKey =>
        match skipWs afterKey with
        | ':' :: afterColon =>
          match parseJsonVal fuel afterColon with
          | none => none
          | some (v, rest2) =>
            match skipWs rest2 with
            | ',' :: r =>
              match parseJsonFields fuel r with
              | some (fields, r2) => some ((⟨key⟩, v) :: fields, r2)
              | none => none
            | '\x7d' :: r => some ([(⟨key⟩, v)], r)
            | _ => none
        | _ => none
    | _ => none

end

/-- Modelled external library: `JSON.parse`.  Parses the whole string,
requiring only trailing whitespace after the value. -/
def jsonParse (s : String) : Option Value :=
  match parseJsonVal (s.length + 1) s.data with
  | some (v, rest) => if skipWs rest = [] then some v else none
  | none => none

/-- Property lookup in an ordered key/value list: the semantics of reading
a JavaScript object property, `none` standing for `undefined`. -/
def lookupStr {α : Type} : List (String × α) → String → Option α
  | [], _ => none
  | (k, v) :: rest, key => if k == key then some v else lookupStr rest key

/-- Property update as performed by a spread-and-override object literal:
an existing key keeps its position and receives the new value, a fresh
key is appended at the end. -/
def setKey {α : Type} : List (String × α) → String → α → List (String × α)
  | [], key, val => [(key, val)]
  | (k, v) :: rest, key, val =>
    if k == key then (k, val) :: rest else (k, v) :: setKey rest key val

/-- JavaScript string Boolean coercion: only the empty string is falsy. -/
def strTruthy (s : String) : Bool := s ≠ ""

/-- Input coercion of `executeFunction` (page.tsx lines 307-323), applied
to one declared parameter type and the raw string typed by the user.
The branches are tested in source order: the integer test
(`type.includes("uint") || type.includes("int")`) fires before the exact
`bool` test and before the array test (`type.includes("[]")`), and the
array branch parses `value || "[]"` as JSON, substituting an empty array
when the parse throws.  Coercion itself can throw (via `getBigInt`),
hence the `Except`. -/
def coerceInput (ty : String) (value : String) : Except String Value :=
  if strIncludes ty "uint" || strIncludes ty "int" then
    if strTruthy value then (getBigInt value).map Value.vBigInt
    else .ok (Value.vBigInt 0)
  else if ty == "bool" then
    .ok (Value.vBool (value.toLower == "true"))
  else if strIncludes ty "[]" then
    .ok (match jsonParse (if strTruthy value then value else "[]") with
         | some v => v
         | none => Value.vArr [])
  else .ok (Value.vStr value)

/-- A declared ABI parameter (name and type; the optional `internalType`
of the source interface carries no behavior and is omitted). -/
structure FuncParam where
  name : String
  type : String
deriving DecidableEq, Repr

/-- The `ContractFunction` interface of page.tsx. -/
structure ContractFunction where
  name : String
  type : String
  stateMutability : String
  inputs : List FuncParam
  outputs : List FuncParam
deriving DecidableEq, Repr

/-- The argument-building loop of `executeFunction`: for each declared
input in order, read the raw string (`inputs[input.name] || ""`) and
coerce it; the first thrown coercion error aborts the loop, as a thrown
exception aborts `Array.prototype.map`. -/
def coerceArgs : List FuncParam → List (String × String) → Except String (List Value)
  | [], _ => .ok []
  | p :: ps, raw =>
    match coerceInput p.type ((lookupStr raw p.name).getD "") with
    | .error msg => .error msg
    | .ok v =>
      match coerceArgs ps raw with
      | .error msg => .error msg
      | .ok vs => .ok (v :: vs)

/-- Decimal rendering of a JavaScript `BigInt`, as produced by its
`toString()` method. -/
def bigintToString (n : Int) : String := toString n

/-- The element-wise conversion the result formatter applies one level
below the top: a `bigint` becomes its decimal string, anything else is
kept. -/
def fmtShallow (v : Value) : Value :=
  match v with
  | .vBigInt n => .vStr (bigintToString n)
  | x => x

/-- Result normalization of `executeFunction` (page.tsx lines 341-351):
a top-level `bigint` becomes its decimal string; a top-level array maps
`fmtShallow` over its direct elements; any other non-null object maps
`fmtShallow` over its direct property values; everything else is
returned unchanged.  (`null` is falsy, so the object branch skips it.) -/
def formatResult (result : Value) : Value :=
  match result with
  | .vBigInt n => .vStr (bigintToString n)
  | .vArr items => .vArr (items.map fmtShallow)
  | .vObj fields => .vObj (fields.map (fun kv => (kv.1, fmtShallow kv.2)))
  | x => x

/-- Recognizer for `typeof v === "bigint"`. -/
def isBigIntV : Value → Bool
  | .vBigInt _ => true
  | _ => false

/-- A value is shallow-bigint-free when no `bigint` occurs at the top
level, as a direct array element, or as a direct object property value:
exactly the positions the result formatter inspects. -/
def shallowBigIntFree (v : Value) : Bool :=
  match v with
  | .vBigInt _ => false
  | .vArr items => items.all (fun x => !isBigIntV x)
  | .vObj fields => fields.all (fun kv => !isBigIntV kv.2)
  | _ => true

mutual

/-- Whether a `bigint` occurs anywhere inside a value, at any depth. -/
def containsBigInt : Value → Bool
  | .vBigInt _ => true
  | .vArr items => containsBigIntList items
  | .vObj fields => containsBigIntFields fields
  | _ => false

/-- `containsBigInt` over a list of array elements. -/
def containsBigIntList : List Value → Bool
  | [] => false
  | v :: rest => containsBigInt v || containsBigIntList rest

/-- `containsBigInt` over object fields. -/
def containsBigIntFields : List (String × Value) → Bool
  | [] => false
  | (_, v) :: rest => containsBigInt v || containsBigIntFields rest

end

/-- JavaScript Boolean coercion of a value (`undefined` collapsed into
`vNull`): `null`, `false`, zero and the empty string are falsy. -/
def truthy : Value → Bool
  | .vNull => false
  | .vBool b => b
  | .vNum n => n != 0
  | .vBigInt n => n != 0
  | .vStr s => s ≠ ""
  | .vArr _ => true
  | .vObj _ => true

/-- Property access `v[k]` on a non-null value: a missing property—and any
property of a primitive—reads as `undefined`, modelled by `vNull`. -/
def jsField (v : Value) (k : String) : Value :=
  match v with
  | .vObj fields => (lookupStr fields k).getD Value.vNull
  | _ => Value.vNull

/-- Property access that can throw: reading a property of `null` raises a
`TypeError`, every other read succeeds. -/
def getFieldE (v : Value) (k : String) : Except String Value :=
  match v with
  | .vNull => .error "TypeError: cannot read properties of null"
  | other => .ok (jsField other k)

/-- Recognizer for array values, `Array.isArray`. -/
def isArrayValue : Value → Bool
  | .vArr _ => true
  | _ => false

/-- Remove the first occurrence of `pat` from a character list:
JavaScript's `String.prototype.replace` with a plain-string pattern and
empty replacement. -/
def removeFirstSub : List Char → List Char → List Char
  | [], _ => []
  | c :: cs, pat =>
    if List.isPrefixOf pat (c :: cs) then List.drop pat.length (c :: cs)
    else c :: removeFirstSub cs pat

/-- Word characters of the regular-expression class backslash-w. -/
def isWordChar (c : Char) : Bool := c.isAlphanum || c = '_'

/-- Uppercase each word character that starts a word, the effect of
replacing word-boundary word characters by their uppercase forms. -/
def titleCaseChars : Option Char → List Char → List Char
  | _, [] => []
  | prev, c :: cs =>
    let boundary : Bool :=
      match prev with
      | none => true
      | some p => !isWordChar p
    (if isWordChar c && boundary then c.toUpper else c) :: titleCaseChars (some c) cs

/-- Display-name derivation of the catalog loader (page.tsx lines
154-157): strip the first `".json"`, turn dashes into spaces, then
title-case the first letter of each word. -/
def displayName (fileName : String) : String :=
  ⟨titleCaseChars none (((removeFirstSub fileName.data ".json".data)).map
    (fun c => if c = '-' then ' ' else c))⟩

/-- The three observable outcomes of fetching one descriptor file:
a thrown error (network failure or a body that is not JSON), a non-ok
HTTP response, or an ok response whose body parsed to a JSON value. -/
inductive FetchResult where
  | netError : String → FetchResult
  | notOk : FetchResult
  | okJson : Value → FetchResult

/-- A catalog entry as pushed by the loader.  The source annotates
`address` as a string and `abi` as an array, but assigns whatever the
parsed JSON held, so both fields are modelled as raw values. -/
structure ContractFile where
  name : String
  address : Value
  abi : Value

/-- Per-file step of `loadContractFiles` (page.tsx lines 147-166): a
thrown fetch/parse error is caught (with a warning) and the file is
skipped; a non-ok response is skipped silently; an ok JSON body `null`
throws on the `contractData.address` read and is likewise caught; any
other body is accepted exactly when both its `address` and `abi`
properties are truthy. -/
def processFile (fileName : String) (fr : FetchResult) : Option ContractFile :=
  match fr with
  | .netError _ => none
  | .notOk => none
  | .okJson .vNull => none
  | .okJson data =>
    if truthy (jsField data "address") && truthy (jsField data "abi") then
      some ⟨displayName fileName, jsField data "address", jsField data "abi"⟩
    else none

/-- The catalog loader over the listed descriptor files, in order.  Each
file is fetched and processed independently inside the loop's own
try/catch, so the accepted entries are exactly the per-file successes. -/
def loadContractFiles (files : List (String × FetchResult)) : List ContractFile :=
  files.filterMap (fun nf => processFile nf.1 nf.2)

/-- Whether a value's `type` property is exactly the string
`"function"`, the predicate of the ABI filter in `connectToContract`. -/
def isFunctionTag (v : Value) : Bool :=
  match v with
  | .vStr s => s == "function"
  | _ => false

/-- The ABI function extractor (page.tsx line 268):
`abi.filter(item => item.type === "function")`.  Reading `item.type`
throws on a `null` entry, which would escape the filter; every other
entry is kept exactly when its tag is `"function"`. -/
def extractFunctions : List Value → Except String (List Value)
  | [] => .ok []
  | e :: rest =>
    match getFieldE e "type" with
    | .error msg => .error msg
    | .ok t =>
      match extractFunctions rest with
      | .error msg => .error msg
      | .ok tail => .ok (if isFunctionTag t then e :: tail else tail)

/-- An InvocationResult: the `FunctionResult` interface of page.tsx.
`result = none` models the `null` result recorded on failure; absent
optional fields are `none`. -/
structure FunctionResult where
  functionName : String
  inputs : List (String × String)
  result : Option Value
  error : Option String
  gasUsed : Option String
  transactionHash : Option String
  timestamp : Nat

/-- Outcome of the state-changing dispatch path, as observed through the
awaited promises: the call itself may throw, `tx.wait()` may throw after
the hash was already read, or the transaction confirms with a hash, a
gas figure and a receipt value. -/
inductive TxOutcome where
  | callFail : String → TxOutcome
  | waitFail : String → String → TxOutcome
  | confirmed : String → Int → Value → TxOutcome

/-- The React state cells of the component that the claims concern,
gathered into one record.  `contract` and `wallet` only matter through
their null checks, so they are reduced to option-of-unit. -/
structure AppState where
  contract : Option Unit
  wallet : Option Unit
  functionInputs : List (String × List (String × String))
  functionResults : List FunctionResult
  latestFunctionResults : String → Option FunctionResult
  loadingFunctions : String → Bool
  expandedFunctions : String → Bool

/-- `stateMutability === "view" || stateMutability === "pure"`. -/
def isReadCall (f : ContractFunction) : Bool :=
  f.stateMutability == "view" || f.stateMutability == "pure"

/-- The dispatch step of `executeFunction` (page.tsx lines 329-339),
after successful coercion: a read call returns its value with no gas
figure and no hash; a write submits, records the hash, awaits the
receipt, and yields the receipt as the result together with
`receipt.gasUsed.toString()` and the hash.  The throwing cases carry the
message that the surrounding catch will observe; a hash read before a
failing `wait()` is abandoned, because the catch path never stores it. -/
def dispatchCall (f : ContractFunction) (readO : Except String Value)
    (txO : TxOutcome) : Except String (Value × Option String × Option String) :=
  if isReadCall f then
    match readO with
    | .ok v => .ok (v, none, none)
    | .error msg => .error msg
  else
    match txO with
    | .callFail msg => .error msg
    | .waitFail _ msg => .error msg
    | .confirmed hash gas receipt => .ok (receipt, some (bigintToString gas), some hash)

/-- `executeFunction` (page.tsx lines 299-390) as a state transition.
The network is an oracle: `readO` is the value or error a read call
would settle with, `txO` the fate of a submitted transaction, and `now`
the clock reading; with those fixed the handler is a pure function of
the state.  It bails out unchanged when `contract` or `wallet` is null;
otherwise it marks the function loading, coerces the stored raw inputs,
dispatches, records exactly one new result (prepending it to the log
and overwriting the latest-by-name entry), and finally clears the
loading mark. -/
def executeFunction (st : AppState) (func : ContractFunction)
    (readO : Except String Value) (txO : TxOutcome) (now : Nat) : AppState :=
  match st.contract, st.wallet with
  | some _, some _ =>
    let functionName := func.name
    let loading1 : String → Bool :=
      fun n => if n == functionName then true else st.loadingFunctions n
    let inputs := (lookupStr st.functionInputs functionName).getD []
    let outcome : Except String (Value × Option String × Option String) :=
      match coerceArgs func.inputs inputs with
      | .error msg => .error msg
      | .ok _ => dispatchCall func readO txO
    match outcome with
    | .ok triple =>
      let fr : FunctionResult :=
        { functionName := functionName
          inputs := inputs
          result := some (formatResult triple.1)
          error := none
          gasUsed := triple.2.1
          transactionHash := triple.2.2
          timestamp := now }
      { st with
        functionResults := fr :: st.functionResults
        latestFunctionResults :=
          fun n => if n == functionName then some fr else st.latestFunctionResults n
        loadingFunctions := fun n => if n == functionName then false else loading1 n }
    | .error msg =>
      let fr : FunctionResult :=
        { functionName := functionName
          inputs := inputs
          result := none
          error := some msg
          gasUsed := none
          transactionHash := none
          timestamp := now }
      { st with
        functionResults := fr :: st.functionResults
        latestFunctionResults :=
          fun n => if n == functionName then some fr else st.latestFunctionResults n
        loadingFunctions := fun n => if n == functionName then false else loading1 n }
  | _, _ => st

/-- `handleInputChange` (page.tsx lines 289-297) on the
function-inputs map: a spread-and-override at the function-name key
whose value is a spread-and-override of that function's own mapping
(`{...prev[fn]}` of an absent entry being the empty object). -/
def handleInputChange (m : List (String × List (String × String)))
    (fn pn v : String) : List (String × List (String × String)) :=
  setKey m fn (setKey ((lookupStr m fn).getD []) pn v)

/-- Read one stored raw input: the value `getInputs(fn)[pn]` would show. -/
def getInput (m : List (String × List (String × String)))
    (fn pn : String) : Option String :=
  lookupStr ((lookupStr m fn).getD []) pn

/-- Replay a sequence of `setInput` calls from a starting map. -/
def inputsAfter (m : List (String × List (String × String)))
    (calls : List (String × String × String)) : List (String × List (String × String)) :=
  calls.foldl (fun acc c => handleInputChange acc c.1 c.2.1 c.2.2) m

/-- The value of the most recent call in `calls` addressed to `(fn, pn)`,
if any. -/
def lastWrite (calls : List (String × String × String))
    (fn pn : String) : Option String :=
  match calls with
  | [] => none
  | c :: rest =>
    match lastWrite rest fn pn with
    | some v => some v
    | none => if c.1 == fn && c.2.1 == pn then some c.2.2 else none

/-- The operations available between two contract connections: executing
a function (with its network oracle), editing one input field, and
toggling a function card.  `connectToContract` is deliberately absent:
it begins a new session, resetting the result log (page.tsx lines
274-276) as the specification's session lifecycle describes. -/
inductive SessionOp where
  | exec : ContractFunction → Except String Value → TxOutcome → Nat → SessionOp
  | inputChange : String → String → String → SessionOp
  | toggleExpand : String → SessionOp

/-- Apply one session operation to the component state. -/
def applyOp (st : AppState) (op : SessionOp) : AppState :=
  match op with
  | .exec func readO txO now => executeFunction st func readO txO now
  | .inputChange fn pn v =>
    { st with functionInputs := handleInputChange st.functionInputs fn pn v }
  | .toggleExpand fn =>
    { st with expandedFunctions :=
        fun n => if n == fn then !st.expandedFunctions fn else st.expandedFunctions n }

/-- Apply a sequence of session operations in order. -/
def applyOps (st : AppState) (ops : List SessionOp) : AppState :=
  ops.foldl applyOp st

/-- The invocation failed: its coercion threw with message `msg`, or it
is a read call whose awaited call rejected with `msg`, or it is a write
whose submission or confirmation rejected with `msg`. -/
def execFailsWith (st : AppState) (func : ContractFunction)
    (readO : Except String Value) (txO : TxOutcome) (msg : String) : Prop :=
  coerceArgs func.inputs ((lookupStr st.functionInputs func.name).getD []) = .error msg ∨
  ((∃ args, coerceArgs func.inputs ((lookupStr st.functionInputs func.name).getD []) = .ok args) ∧
    ((isReadCall func = true ∧ readO = .error msg) ∨
     (isReadCall func = false ∧
       (txO = .callFail msg ∨ ∃ h, txO = .waitFail h msg))))

/-- Witness fixture: a connected state carrying one stored raw input,
`"abc"` for the `newCount` parameter of `setCount`. -/
def connectedState : AppState :=
  { contract := some ()
    wallet := some ()
    functionInputs := [("setCount", [("newCount", "abc")])]
    functionResults := []
    latestFunctionResults := fun _ => none
    loadingFunctions := fun _ => false
    expandedFunctions := fun _ => false }

/-- Witness fixture: a parameterless view function. -/
def sampleViewFunction : ContractFunction :=
  { name := "getCount", type := "function", stateMutability := "view"
    inputs := [], outputs := [⟨"", "uint256"⟩] }

/-- Witness fixture: a nonpayable function with one `uint256` parameter. -/
def sampleWriteFunction : ContractFunction :=
  { name := "setCount", type := "function", stateMutability := "nonpayable"
    inputs := [⟨"newCount", "uint256"⟩], outputs := [] }

theorem getFieldE_ok (e : Value) (k : String) (h : e ≠ Value.vNull) :
    getFieldE e k = .ok (jsField e k) := by
  cases e
  case vNull => exact absurd rfl h
  all_goals rfl

theorem extractFunctions_eq_filter (abi : List Value)
    (h : ∀ e ∈ abi, e ≠ Value.vNull) :
    extractFunctions abi = .ok (abi.filter (fun e => isFunctionTag (jsField e "type"))) := by
  induction abi with
  | nil => rfl
  | cons e rest ih =>
    have he : e ≠ Value.vNull := h e (List.mem_cons_self _ _)
    have hr : ∀ x ∈ rest, x ≠ Value.vNull := fun x hx => h x (List.mem_cons_of_mem _ hx)
    rw [List.filter_cons]
    simp only [extractFunctions, getFieldE_ok e _ he, ih hr]

theorem isBigIntV_fmtShallow (v : Value) : isBigIntV (fmtShallow v) = false := by
  cases v <;> rfl

theorem fmtShallow_of_not_bigint (v : Value) (h : isBigIntV v = false) :
    fmtShallow v = v := by
  cases v <;> simp_all [isBigIntV, fmtShallow]

theorem map_fmtShallow_id (items : List Value)
    (h : items.all (fun x => !isBigIntV x) = true) : items.map fmtShallow = items := by
  induction items with
  | nil => rfl
  | cons x xs ih =>
    simp only [List.all_cons, Bool.and_eq_true, Bool.not_eq_true'] at h
    simp [fmtShallow_of_not_bigint x h.1, ih h.2]

theorem map_fmtShallow_fields_id (fields : List (String × Value))
    (h : fields.all (fun kv => !isBigIntV kv.2) = true) :
    fields.map (fun kv => (kv.1, fmtShallow kv.2)) = fields := by
  induction fields with
  | nil => rfl
  | cons kv kvs ih =>
    simp only [List.all_cons, Bool.and_eq_true, Bool.not_eq_true'] at h
    simp [fmtShallow_of_not_bigint kv.2 h.1, ih h.2]

/-- C7: for every ABI document (here: whose entries are not `null`, the
only shape on which the source filter's property read would throw), the
extractor returns exactly the ordered subsequence of entries whose type
tag is `function`: it equals the order-preserving filter, is a
subsequence of the input, and contains an entry iff that entry is in the
input with type tag exactly `"function"` — so no event, constructor or
error entry appears.  Determinism and absence of side effects hold
because `extractFunctions` is a pure function. -/
theorem claim7_extractor_spec (abi : List Value)
    (h : ∀ e ∈ abi, e ≠ Value.vNull) :
    ∃ out, extractFunctions abi = .ok out ∧
      out = abi.filter (fun e => isFunctionTag (jsField e "type")) ∧
      List.Sublist out abi ∧
      (∀ e, e ∈ out ↔ (e ∈ abi ∧ isFunctionTag (jsField e "type") = true)) := by
  refine ⟨_, extractFunctions_eq_filter abi h, rfl, List.filter_sublist _, ?_⟩
  intro e
  simp [List.mem_filter]

theorem claim7_extractor_spec_witness :
    ∃ out, extractFunctions
        [Value.vObj [("type", Value.vStr "function"), ("name", Value.vStr "get")],
         Value.vObj [("type", Value.vStr "event")],
         Value.vObj [("type", Value.vStr "constructor")]] = .ok out ∧
      out = [Value.vObj [("type", Value.vStr "function"), ("name", Value.vStr "get")],
             Value.vObj [("type", Value.vStr "event")],
             Value.vObj [("type", Value.vStr "constructor")]].filter
               (fun e => isFunctionTag (jsField e "type")) ∧
      List.Sublist out
        [Value.vObj [("type", Value.vStr "function"), ("name", Value.vStr "get")],
         Value.vObj [("type", Value.vStr "event")],
         Value.vObj [("type", Value.vStr "constructor")]] ∧
      (∀ e, e ∈ out ↔
        (e ∈ [Value.vObj [("type", Value.vStr "function"), ("name", Value.vStr "get")],
              Value.vObj [("type", Value.vStr "event")],
              Value.vObj [("type", Value.vStr "constructor")]] ∧
          isFunctionTag (jsField e "type") = true)) :=
  claim7_extractor_spec _ (by
    intro e he
    simp only [List.mem_cons, List.not_mem_nil, or_false] at he
    rcases he with rfl | rfl | rfl <;> simp)

/-- C8: for a parameter whose declared type passes the source's integer
test (`type.includes("uint") || type.includes("int")`, satisfied by every
`uint*` and `int*` type), an empty raw string coerces to the big integer
zero and a nonempty raw string is handed to the arbitrary-precision
parser `getBigInt`; for a parameter of exact type `bool`, the coerced
value is the boolean that is true exactly when the lower-cased raw
string equals `"true"`. -/
theorem claim8_int_bool_coercion (ty s : String)
    (hint : (strIncludes ty "uint" || strIncludes ty "int") = true)
    (hs : s ≠ "") :
    coerceInput ty "" = .ok (Value.vBigInt 0) ∧
    coerceInput ty s = (getBigInt s).map Value.vBigInt ∧
    coerceInput "bool" s = .ok (Value.vBool (s.toLower == "true")) := by
  have hb : (strIncludes "bool" "uint" || strIncludes "bool" "int") = false := by decide
  refine ⟨?_, ?_, ?_⟩
  · simp [coerceInput, hint, strTruthy]
  · simp [coerceInput, hint, strTruthy, hs]
  · simp [coerceInput, hb]

theorem claim8_int_bool_coercion_witness :
    coerceInput "uint256" "" = .ok (Value.vBigInt 0) ∧
    coerceInput "uint256" "TRUE" = (getBigInt "TRUE").map Value.vBigInt ∧
    coerceInput "bool" "TRUE" = .ok (Value.vBool ("TRUE".toLower == "true")) :=
  claim8_int_bool_coercion "uint256" "TRUE" (by decide) (by decide)

/-- C1 counterexample: the claim fails on the code for integer array
types.  Because the integer test (`type.includes("uint")`) is evaluated
before the array test, a `uint256[]` parameter is routed to `getBigInt`:
the raw string `"[1,2,3]"` does not coerce to the sequence `[1,2,3]` but
throws, and `"not-json"` does not coerce to an empty sequence but
likewise throws, failing the whole call. -/
theorem claim1_counterexample :
    coerceInput "uint256[]" "[1,2,3]" = .error "invalid BigNumberish string" ∧
    coerceInput "uint256[]" "not-json" = .error "invalid BigNumberish string" ∧
    coerceInput "uint256[]" "[1,2,3]" ≠
      .ok (Value.vArr [Value.vNum 1, Value.vNum 2, Value.vNum 3]) ∧
    coerceInput "uint256[]" "not-json" ≠ .ok (Value.vArr []) := by
  have h1 : coerceInput "uint256[]" "[1,2,3]" =
      Except.error "invalid BigNumberish string" := rfl
  have h2 : coerceInput "uint256[]" "not-json" =
      Except.error "invalid BigNumberish string" := rfl
  refine ⟨h1, h2, ?_, ?_⟩
  · rw [h1]; exact fun h => Except.noConfusion h
  · rw [h2]; exact fun h => Except.noConfusion h

/-- C1 amended: only for array-suffixed types that do not also contain
`uint` or `int` (e.g. `address[]`, `string[]`, `bool[]`) does coercion
parse the raw string (`value || "[]"`) as a JSON array literal,
substituting the empty sequence when the parse fails; integer array
types such as `uint256[]` are captured by the earlier integer branch and
go to `getBigInt` instead. -/
theorem claim1_array_coercion_amended (ty s : String)
    (harr : strIncludes ty "[]" = true)
    (hu : strIncludes ty "uint" = false)
    (hi : strIncludes ty "int" = false) :
    coerceInput ty s =
      .ok (match jsonParse (if strTruthy s then s else "[]") with
           | some v => v
           | none => Value.vArr []) := by
  have hbool : (ty == "bool") = false := by
    rcases Bool.eq_false_or_eq_true (ty == "bool") with h | h
    · exfalso
      have heq : ty = "bool" := by simpa using h
      rw [heq] at harr
      exact absurd harr (by decide)
    · exact h
  simp [coerceInput, hu, hi, hbool, harr]

theorem claim1_array_coercion_amended_witness :
    coerceInput "address[]" "[1,2,3]" =
      .ok (Value.vArr [Value.vNum 1, Value.vNum 2, Value.vNum 3]) ∧
    coerceInput "address[]" "not-json" = .ok (Value.vArr []) := by
  constructor
  · rw [claim1_array_coercion_amended "address[]" "[1,2,3]"
      (by decide) (by decide) (by decide)]
    rfl
  · rw [claim1_array_coercion_amended "address[]" "not-json"
      (by decide) (by decide) (by decide)]
    rfl

/-- C2 counterexample: the claim fails on the code for nesting depth
greater than one.  Normalization is not recursive: a `bigint` inside a
sequence inside the top-level sequence is left as a `bigint`, not
converted to its decimal string. -/
theorem claim2_counterexample :
    formatResult (Value.vArr [Value.vArr [Value.vBigInt 5]]) =
      Value.vArr [Value.vArr [Value.vBigInt 5]] ∧
    containsBigInt (formatResult (Value.vArr [Value.vArr [Value.vBigInt 5]])) = true :=
  ⟨rfl, rfl⟩

/-- C2 amended: normalization converts exactly the `bigint`s the
formatter can see — a top-level `bigint`, a `bigint` that is a direct
element of a top-level sequence, and a `bigint` that is a direct
property value of a top-level record — to decimal strings (so the
output is shallow-bigint-free), and any value with no `bigint` in those
shallow positions passes through completely unchanged, deeper nesting
included; the spec's record example holds at depth one. -/
theorem claim2_normalization_amended (v : Value) :
    shallowBigIntFree (formatResult v) = true ∧
    (shallowBigIntFree v = true → formatResult v = v) ∧
    formatResult (Value.vObj
        [("a", Value.vBigInt 123456789012345678901234567890), ("b", Value.vStr "x")]) =
      Value.vObj
        [("a", Value.vStr "123456789012345678901234567890"), ("b", Value.vStr "x")] := by
  refine ⟨?_, ?_, rfl⟩
  · cases v with
    | vArr items => simp [formatResult, shallowBigIntFree, List.all_map, isBigIntV_fmtShallow]
    | vObj fields => simp [formatResult, shallowBigIntFree, List.all_map, isBigIntV_fmtShallow]
    | _ => rfl
  · intro h
    cases v with
    | vBigInt n => simp [shallowBigIntFree] at h
    | vArr items =>
      simp only [shallowBigIntFree] at h
      simp [formatResult, map_fmtShallow_id items h]
    | vObj fields =>
      simp only [shallowBigIntFree] at h
      simp [formatResult, map_fmtShallow_fields_id fields h]
    | _ => rfl

theorem claim2_normalization_amended_witness :
    shallowBigIntFree (formatResult (Value.vArr [Value.vArr [Value.vBigInt 5]])) = true ∧
    formatResult (Value.vArr [Value.vArr [Value.vBigInt 5]]) =
      Value.vArr [Value.vArr [Value.vBigInt 5]] := by
  have h := claim2_normalization_amended (Value.vArr [Value.vArr [Value.vBigInt 5]])
  exact ⟨h.1, h.2.1 rfl⟩

/-- C3 counterexample: the claim fails on the code in its
"array-typed ABI" conjunct.  The loader tests `address` and `abi` only
for truthiness and never checks `Array.isArray`, so a descriptor whose
`abi` is a truthy non-array (here the string `"not-an-array"`) is
accepted into the catalog. -/
theorem claim3_counterexample :
    loadContractFiles [("token.json",
        FetchResult.okJson (Value.vObj
          [("address", Value.vStr "0x1"), ("abi", Value.vStr "not-an-array")]))] =
      [⟨"Token", Value.vStr "0x1", Value.vStr "not-an-array"⟩] ∧
    isArrayValue (Value.vStr "not-an-array") = false :=
  ⟨rfl, rfl⟩

/-- C3 amended: a descriptor file is accepted into the catalog iff its
fetch returned ok, its body parsed as JSON to a non-null value, and both
its `address` and `abi` properties are truthy — a non-empty address
string qualifies, but the ABI's array-typedness is not verified.  A file
missing `address` or `abi` (the missing property reads as undefined and
is falsy) never appears; a malformed or unreachable file is skipped; and
a skipped file never prevents its sibling files from loading. -/
theorem claim3_loader_amended (fs1 fs2 : List (String × FetchResult))
    (name : String) (fr : FetchResult) (cf : ContractFile) (data : Value) :
    (processFile name fr = some cf ↔
      ∃ d, fr = FetchResult.okJson d ∧ d ≠ Value.vNull ∧
        truthy (jsField d "address") = true ∧ truthy (jsField d "abi") = true ∧
        cf = ⟨displayName name, jsField d "address", jsField d "abi"⟩) ∧
    ((truthy (jsField data "address") = false ∨ truthy (jsField data "abi") = false) →
      processFile name (FetchResult.okJson data) = none) ∧
    (processFile name fr = none →
      loadContractFiles (fs1 ++ (name, fr) :: fs2) =
        loadContractFiles fs1 ++ loadContractFiles fs2) := by
  refine ⟨?_, ?_, ?_⟩
  · cases fr with
    | netError msg => simp [processFile]
    | notOk => simp [processFile]
    | okJson d =>
      cases d with
      | vNull => simp [processFile]
      | vBigInt n =>
        by_cases ha : truthy (jsField (Value.vBigInt n) "address") = true <;>
          by_cases hb : truthy (jsField (Value.vBigInt n) "abi") = true <;>
            (simp_all [processFile]; try aesop)
      | vStr s =>
        by_cases ha : truthy (jsField (Value.vStr s) "address") = true <;>
          by_cases hb : truthy (jsField (Value.vStr s) "abi") = true <;>
            (simp_all [processFile]; try aesop)
      | vBool b =>
        by_cases ha : truthy (jsField (Value.vBool b) "address") = true <;>
          by_cases hb : truthy (jsField (Value.vBool b) "abi") = true <;>
            (simp_all [processFile]; try aesop)
      | vNum n =>
        by_cases ha : truthy (jsField (Value.vNum n) "address") = true <;>
          by_cases hb : truthy (jsField (Value.vNum n) "abi") = true <;>
            (simp_all [processFile]; try aesop)
      | vArr items =>
        by_cases ha : truthy (jsField (Value.vArr items) "address") = true <;>
          by_cases hb : truthy (jsField (Value.vArr items) "abi") = true <;>
            (simp_all [processFile]; try aesop)
      | vObj fields =>
        by_cases ha : truthy (jsField (Value.vObj fields) "address") = true <;>
          by_cases hb : truthy (jsField (Value.vObj fields) "abi") = true <;>
            (simp_all [processFile]; try aesop)
  · intro h
    cases data with
    | vNull => rfl
    | _ =>
      rcases h with h | h <;> simp [processFile, h]
  · intro h
    simp [loadContractFiles, List.filterMap_append, List.filterMap_cons, h]

theorem claim3_loader_amended_witness :
    loadContractFiles
        ([("a-token.json", FetchResult.okJson (Value.vObj
            [("address", Value.vStr "0xA"), ("abi", Value.vArr [])]))] ++
          ("broken.json", FetchResult.okJson (Value.vObj [("abi", Value.vArr [])])) ::
          [("gone.json", FetchResult.netError "fetch failed")]) =
      loadContractFiles
          [("a-token.json", FetchResult.okJson (Value.vObj
            [("address", Value.vStr "0xA"), ("abi", Value.vArr [])]))] ++
        loadContractFiles [("gone.json", FetchResult.netError "fetch failed")] :=
  (claim3_loader_amended
      [("a-token.json", FetchResult.okJson (Value.vObj
        [("address", Value.vStr "0xA"), ("abi", Value.vArr [])]))]
      [("gone.json", FetchResult.netError "fetch failed")]
      "broken.json" (FetchResult.okJson (Value.vObj [("abi", Value.vArr [])]))
      ⟨"", Value.vNull, Value.vNull⟩ Value.vNull).2.2 rfl

/-- C10: when no contract instance or no wallet is connected, an
invocation attempt is a complete no-op — the handler returns the state
unchanged, so nothing is appended to the result log or to the
latest-by-function projection, and the function name never enters the
currently-loading set. -/
theorem claim10_noop_disconnected (st : AppState) (func : ContractFunction)
    (readO : Except String Value) (txO : TxOutcome) (now : Nat)
    (h : st.contract = none ∨ st.wallet = none) :
    executeFunction st func readO txO now = st := by
  cases hc : st.contract with
  | none => simp [executeFunction, hc]
  | some u =>
    cases hw : st.wallet with
    | none => simp [executeFunction, hc, hw]
    | some w =>
      rcases h with h | h
      · rw [hc] at h; exact absurd h (by simp)
      · rw [hw] at h; exact absurd h (by simp)

theorem claim10_noop_disconnected_witness :
    executeFunction
        { contract := none, wallet := some ()
          functionInputs := [], functionResults := []
          latestFunctionResults := fun _ => none
          loadingFunctions := fun _ => false
          expandedFunctions := fun _ => false }
        sampleViewFunction (Except.ok Value.vNull) (TxOutcome.callFail "boom") 0 =
      { contract := none, wallet := some ()
        functionInputs := [], functionResults := []
        latestFunctionResults := fun _ => none
        loadingFunctions := fun _ => false
        expandedFunctions := fun _ => false } :=
  claim10_noop_disconnected _ _ _ _ _ (Or.inl rfl)

/-- C5: a successful invocation of a `view` or `pure` function — the
state is connected, coercion of the stored raw inputs succeeds, and the
read call settles with value `v` — produces exactly one new
InvocationResult: it carries no error, no transaction hash, no gas
figure, and the normalized return value; it is prepended to the result
log (the previous entries surviving unchanged right behind it), and it
overwrites the latest-by-name projection for that function name. -/
theorem claim5_view_success (st : AppState) (func : ContractFunction) (v : Value)
    (txO : TxOutcome) (now : Nat)
    (hc : st.contract = some ()) (hw : st.wallet = some ())
    (hmut : func.stateMutability = "view" ∨ func.stateMutability = "pure")
    (hco : ∃ args, coerceArgs func.inputs
        ((lookupStr st.functionInputs func.name).getD []) = .ok args) :
    ∃ fr : FunctionResult,
      (executeFunction st func (.ok v) txO now).functionResults =
        fr :: st.functionResults ∧
      fr.functionName = func.name ∧
      fr.error = none ∧
      fr.transactionHash = none ∧
      fr.gasUsed = none ∧
      fr.result = some (formatResult v) ∧
      (executeFunction st func (.ok v) txO now).latestFunctionResults func.name =
        some fr := by
  obtain ⟨args, hargs⟩ := hco
  have hread : isReadCall func = true := by
    rcases hmut with h | h <;> simp [isReadCall, h]
  refine ⟨{ functionName := func.name
            inputs := (lookupStr st.functionInputs func.name).getD []
            result := some (formatResult v)
            error := none
            gasUsed := none
            transactionHash := none
            timestamp := now }, ?_, rfl, rfl, rfl, rfl, rfl, ?_⟩
  · simp [executeFunction, hc, hw, hargs, dispatchCall, hread]
  · simp [executeFunction, hc, hw, hargs, dispatchCall, hread]

theorem claim5_view_success_witness :
    ∃ fr : FunctionResult,
      (executeFunction connectedState sampleViewFunction
          (.ok (Value.vBigInt 42)) (TxOutcome.callFail "x") 7).functionResults =
        fr :: connectedState.functionResults ∧
      fr.functionName = sampleViewFunction.name ∧
      fr.error = none ∧
      fr.transactionHash = none ∧
      fr.gasUsed = none ∧
      fr.result = some (formatResult (Value.vBigInt 42)) ∧
      (executeFunction connectedState sampleViewFunction
          (.ok (Value.vBigInt 42)) (TxOutcome.callFail "x") 7).latestFunctionResults
          sampleViewFunction.name = some fr :=
  claim5_view_success connectedState sampleViewFunction (Value.vBigInt 42)
    (TxOutcome.callFail "x") 7 rfl rfl (Or.inl rfl) ⟨[], rfl⟩

/-- C6: an invocation that fails — in coercion, in the read call, or in
the transaction's submission or confirmation — never propagates the
thrown error (the transition is a total function); it records exactly
one new InvocationResult with a null result, the failure's message as
`error`, no transaction identifier and no gas figure, prepended to the
log and installed as the latest entry for the name; and whatever the
outcome, success or failure, the function name is no longer in the
currently-loading set when the handler finishes. -/
theorem claim6_failure_recorded (st : AppState) (func : ContractFunction)
    (readO : Except String Value) (txO : TxOutcome) (now : Nat) (msg : String)
    (hc : st.contract = some ()) (hw : st.wallet = some ())
    (hfail : execFailsWith st func readO txO msg) :
    (∃ fr : FunctionResult,
      (executeFunction st func readO txO now).functionResults =
        fr :: st.functionResults ∧
      fr.functionName = func.name ∧
      fr.result = none ∧
      fr.error = some msg ∧
      fr.transactionHash = none ∧
      fr.gasUsed = none ∧
      (executeFunction st func readO txO now).latestFunctionResults func.name =
        some fr) ∧
    (∀ (rO : Except String Value) (tO : TxOutcome) (n : Nat),
      (executeFunction st func rO tO n).loadingFunctions func.name = false) := by
  constructor
  · refine ⟨{ functionName := func.name
              inputs := (lookupStr st.functionInputs func.name).getD []
              result := none
              error := some msg
              gasUsed := none
              transactionHash := none
              timestamp := now }, ?_, rfl, rfl, rfl, rfl, rfl, ?_⟩ <;>
    · rcases hfail with hargs | ⟨⟨args, hargs⟩, hrest⟩
      · simp [executeFunction, hc, hw, hargs]
      · rcases hrest with ⟨hread, hro⟩ | ⟨hwrite, htx⟩
        · simp [executeFunction, hc, hw, hargs, dispatchCall, hread, hro]
        · rcases htx with htx | ⟨hash, htx⟩ <;>
            simp [executeFunction, hc, hw, hargs, dispatchCall, hwrite, htx]
  · intro rO tO n
    rcases hargs : coerceArgs func.inputs
        ((lookupStr st.functionInputs func.name).getD []) with msg2 | args
    · simp [executeFunction, hc, hw, hargs]
    · rcases hdisp : dispatchCall func rO tO with msg2 | triple <;>
        simp [executeFunction, hc, hw, hargs, hdisp]

theorem claim6_failure_recorded_witness :
    (∃ fr : FunctionResult,
      (executeFunction connectedState sampleWriteFunction
          (.ok Value.vNull) (TxOutcome.confirmed "0xh" 21000 Value.vNull)
          9).functionResults = fr :: connectedState.functionResults ∧
      fr.functionName = sampleWriteFunction.name ∧
      fr.result = none ∧
      fr.error = some "invalid BigNumberish string" ∧
      fr.transactionHash = none ∧
      fr.gasUsed = none ∧
      (executeFunction connectedState sampleWriteFunction
          (.ok Value.vNull) (TxOutcome.confirmed "0xh" 21000 Value.vNull)
          9).latestFunctionResults sampleWriteFunction.name = some fr) ∧
    (∀ (rO : Except String Value) (tO : TxOutcome) (n : Nat),
      (executeFunction connectedState sampleWriteFunction rO tO
        n).loadingFunctions sampleWriteFunction.name = false) :=
  claim6_failure_recorded connectedState sampleWriteFunction
    (.ok Value.vNull) (TxOutcome.confirmed "0xh" 21000 Value.vNull)
    9 "invalid BigNumberish string" rfl rfl (Or.inl rfl)

theorem executeFunction_log_shape (s : AppState) (func : ContractFunction)
    (readO : Except String Value) (txO : TxOutcome) (now : Nat) :
    (executeFunction s func readO txO now).functionResults = s.functionResults ∨
    ∃ fr, (executeFunction s func readO txO now).functionResults =
      fr :: s.functionResults := by
  cases hc : s.contract with
  | none => left; simp [executeFunction, hc]
  | some u =>
    cases hw : s.wallet with
    | none => left; simp [executeFunction, hc, hw]
    | some w =>
      rcases hargs : coerceArgs func.inputs
          ((lookupStr s.functionInputs func.name).getD []) with msg | args
      · right
        refine ⟨{ functionName := func.name
                  inputs := (lookupStr s.functionInputs func.name).getD []
                  result := none, error := some msg, gasUsed := none
                  transactionHash := none, timestamp := now }, ?_⟩
        simp [executeFunction, hc, hw, hargs]
      · rcases hdisp : dispatchCall func readO txO with msg | triple
        · right
          refine ⟨{ functionName := func.name
                    inputs := (lookupStr s.functionInputs func.name).getD []
                    result := none, error := some msg, gasUsed := none
                    transactionHash := none, timestamp := now }, ?_⟩
          simp [executeFunction, hc, hw, hargs, hdisp]
        · right
          refine ⟨{ functionName := func.name
                    inputs := (lookupStr s.functionInputs func.name).getD []
                    result := some (formatResult triple.1), error := none
                    gasUsed := triple.2.1, transactionHash := triple.2.2
                    timestamp := now }, ?_⟩
          simp [executeFunction, hc, hw, hargs, hdisp]

theorem applyOp_log_shape (s : AppState) (op : SessionOp) :
    (applyOp s op).functionResults = s.functionResults ∨
    ∃ fr, (applyOp s op).functionResults = fr :: s.functionResults := by
  cases op with
  | exec func readO txO now => exact executeFunction_log_shape s func readO txO now
  | inputChange fn pn v => exact Or.inl rfl
  | toggleExpand fn => exact Or.inl rfl

/-- C4: during a session — the stretch of interaction between two
contract connections, `connectToContract` being the session-resetting
boundary the spec's session lifecycle describes — the result log is
mutated only by prepending: every available operation either leaves the
log untouched or pushes exactly one new InvocationResult on its front,
and hence after any sequence of operations the original entries survive
as a verbatim suffix, never removed, truncated, reordered or modified. -/
theorem claim4_log_append_only (st : AppState) (ops : List SessionOp) :
    (∀ (s : AppState) (op : SessionOp),
      (applyOp s op).functionResults = s.functionResults ∨
      ∃ fr, (applyOp s op).functionResults = fr :: s.functionResults) ∧
    List.IsSuffix st.functionResults (applyOps st ops).functionResults := by
  refine ⟨applyOp_log_shape, ?_⟩
  induction ops generalizing st with
  | nil => exact List.suffix_refl _
  | cons op rest ih =>
    have h1 : List.IsSuffix st.functionResults (applyOp st op).functionResults := by
      rcases applyOp_log_shape st op with h | ⟨fr, h⟩
      · rw [h]
      · rw [h]; exact List.suffix_cons fr _
    have h2 := ih (applyOp st op)
    have hstep : applyOps st (op :: rest) = applyOps (applyOp st op) rest := rfl
    rw [hstep]
    exact h1.trans h2

theorem lookupStr_setKey_self {α : Type} (m : List (String × α)) (k : String) (v : α) :
    lookupStr (setKey m k v) k = some v := by
  induction m with
  | nil => simp [setKey, lookupStr]
  | cons kv rest ih =>
    obtain ⟨k1, v1⟩ := kv
    by_cases h : k1 = k
    · subst h; simp [setKey, lookupStr]
    · simp [setKey, lookupStr, h, ih]

theorem lookupStr_setKey_other {α : Type} (m : List (String × α)) (k k2 : String)
    (v : α) (h : k2 ≠ k) : lookupStr (setKey m k v) k2 = lookupStr m k2 := by
  induction m with
  | nil => simp [setKey, lookupStr, Ne.symm h]
  | cons kv rest ih =>
    obtain ⟨k1, v1⟩ := kv
    by_cases h1 : k1 = k
    · subst h1; simp [setKey, lookupStr, Ne.symm h]
    · simp [setKey, lookupStr, h1, ih]

theorem getInput_handleInputChange_point (m : List (String × List (String × String)))
    (fn pn v : String) :
    getInput (handleInputChange m fn pn v) fn pn = some v := by
  simp [getInput, handleInputChange, lookupStr_setKey_self]

theorem handleInputChange_other_fn (m : List (String × List (String × String)))
    (fn pn v fn2 : String) (h : fn2 ≠ fn) :
    lookupStr (handleInputChange m fn pn v) fn2 = lookupStr m fn2 := by
  simp [handleInputChange, lookupStr_setKey_other _ _ _ _ h]

theorem getInput_handleInputChange_other_pn (m : List (String × List (String × String)))
    (fn pn v pn2 : String) (h : pn2 ≠ pn) :
    getInput (handleInputChange m fn pn v) fn pn2 = getInput m fn pn2 := by
  simp [getInput, handleInputChange, lookupStr_setKey_self,
    lookupStr_setKey_other _ _ _ _ h]

theorem getInput_inputsAfter (calls : List (String × String × String))
    (m : List (String × List (String × String))) (fn pn : String) :
    getInput (inputsAfter m calls) fn pn =
      match lastWrite calls fn pn with
      | some w => some w
      | none => getInput m fn pn := by
  induction calls generalizing m with
  | nil => rfl
  | cons c rest ih =>
    obtain ⟨cf, cp, cv⟩ := c
    have hstep : inputsAfter m ((cf, cp, cv) :: rest) =
        inputsAfter (handleInputChange m cf cp cv) rest := rfl
    rw [hstep, ih]
    have hcur : getInput (handleInputChange m cf cp cv) fn pn =
        if cf == fn && cp == pn then some cv else getInput m fn pn := by
      by_cases h1 : cf = fn
      · subst h1
        by_cases h2 : cp = pn
        · subst h2; simp [getInput_handleInputChange_point]
        · simp [h2, getInput_handleInputChange_other_pn _ _ _ _ _ (Ne.symm h2)]
      · simp [h1, getInput, handleInputChange_other_fn _ _ _ _ _ (Ne.symm h1)]
    rcases hlw : lastWrite rest fn pn with _ | w
    · by_cases hcond : (cf == fn && cp == pn) = true
      · simp [lastWrite, hlw, hcond, hcur]
      · simp [lastWrite, hlw, hcond, hcur]
    · simp [lastWrite, hlw]

theorem lookup_inputsAfter_untouched (calls : List (String × String × String))
    (fn : String) :
    ∀ m, (∀ c ∈ calls, c.1 ≠ fn) →
      lookupStr (inputsAfter m calls) fn = lookupStr m fn := by
  induction calls with
  | nil => intro m h; rfl
  | cons c rest ih =>
    intro m h
    obtain ⟨cf, cp, cv⟩ := c
    have hc : cf ≠ fn := h (cf, cp, cv) (List.mem_cons_self _ _)
    have hr : ∀ c ∈ rest, c.1 ≠ fn := fun c hcm => h c (List.mem_cons_of_mem _ hcm)
    have hstep : inputsAfter m ((cf, cp, cv) :: rest) =
        inputsAfter (handleInputChange m cf cp cv) rest := rfl
    rw [hstep, ih _ hr, handleInputChange_other_fn _ _ _ _ _ (Ne.symm hc)]

/-- C9: the form state manager is a non-destructive per-key store.
Replaying any sequence of `setInput` calls from the empty state: a
function never named by any call still reads as an empty mapping; a
stored input reads as exactly the value of the most recent call
addressed to that function and parameter; and each single call preserves
every other function's mapping and every other parameter of the same
function unchanged. -/
theorem claim9_form_state (calls : List (String × String × String)) (fn pn : String) :
    ((∀ c ∈ calls, c.1 ≠ fn) → lookupStr (inputsAfter [] calls) fn = none) ∧
    (getInput (inputsAfter [] calls) fn pn = lastWrite calls fn pn) ∧
    (∀ (m : List (String × List (String × String))) (f p w f2 : String), f2 ≠ f →
      lookupStr (handleInputChange m f p w) f2 = lookupStr m f2) ∧
    (∀ (m : List (String × List (String × String))) (f p w p2 : String), p2 ≠ p →
      getInput (handleInputChange m f p w) f p2 = getInput m f p2) ∧
    (∀ (m : List (String × List (String × String))) (f p w : String),
      getInput (handleInputChange m f p w) f p = some w) := by
  refine ⟨?_, ?_, ?_, ?_, ?_⟩
  · intro h
    rw [lookup_inputsAfter_untouched calls fn [] h]
    rfl
  · rw [getInput_inputsAfter]
    rcases lastWrite calls fn pn with _ | w <;> rfl
  · intro m f p w f2 h
    exact handleInputChange_other_fn m f p w f2 h
  · intro m f p w p2 h
    exact getInput_handleInputChange_other_pn m f p w p2 h
  · intro m f p w
    exact getInput_handleInputChange_point m f p w

theorem claim9_form_state_witness :
    lookupStr (inputsAfter []
        [("inc", "by", "1"), ("set", "x", "5"), ("inc", "by", "2")]) "other" = none ∧
    getInput (inputsAfter []
        [("inc", "by", "1"), ("set", "x", "5"), ("inc", "by", "2")]) "inc" "by" =
      lastWrite [("inc", "by", "1"), ("set", "x", "5"), ("inc", "by", "2")] "inc" "by" ∧
    getInput (handleInputChange [] "f" "x" "7") "f" "x" = some "7" :=
  ⟨(claim9_form_state [("inc", "by", "1"), ("set", "x", "5"), ("inc", "by", "2")]
      "other" "by").1 (by decide),
   (claim9_form_state [("inc", "by", "1"), ("set", "x", "5"), ("inc", "by", "2")]
      "inc" "by").2.1,
   (claim9_form_state [] "f" "x").2.2.2.2 [] "f" "x" "7"⟩
